import Mathlib

/-!
Verification of the reference-data compilation pipeline and span-resolution
engine of `presidio_config.py`.

The Python string operations used by the source (`str.title()`, `str.split(" ")`,
`str.split()`, `" ".join`, `re.sub(r"\(.*?\)", "", ·)`, `sorted(list(set(·)))`)
are embedded below over `List Char` / `String`, restricted to ASCII case
mapping, which is the character range of all reference data in the repository.
-/

namespace PII

/-- ASCII uppercase test, modelling Python's cased-character test on the ASCII range. -/
def asciiIsUpper (c : Char) : Bool := 'A' ≤ c && c ≤ 'Z'

/-- ASCII lowercase test. -/
def asciiIsLower (c : Char) : Bool := 'a' ≤ c && c ≤ 'z'

/-- ASCII letter test; Python's `str.title()` treats letters as cased characters. -/
def asciiIsAlpha (c : Char) : Bool := asciiIsUpper c || asciiIsLower c

/-- The ASCII case-mapping table: each lowercase letter paired with its
uppercase form. -/
def asciiCasePairs : List (Char × Char) :=
  [('a', 'A'), ('b', 'B'), ('c', 'C'), ('d', 'D'), ('e', 'E'), ('f', 'F'), ('g', 'G'),
   ('h', 'H'), ('i', 'I'), ('j', 'J'), ('k', 'K'), ('l', 'L'), ('m', 'M'), ('n', 'N'),
   ('o', 'O'), ('p', 'P'), ('q', 'Q'), ('r', 'R'), ('s', 'S'), ('t', 'T'), ('u', 'U'),
   ('v', 'V'), ('w', 'W'), ('x', 'X'), ('y', 'Y'), ('z', 'Z')]

/-- Map an ASCII lowercase letter to uppercase; other characters unchanged. -/
def asciiUpper (c : Char) : Char :=
  ((asciiCasePairs.find? fun p => p.1 == c).map Prod.snd).getD c

/-- Map an ASCII uppercase letter to lowercase; other characters unchanged. -/
def asciiLower (c : Char) : Char :=
  ((asciiCasePairs.find? fun p => p.2 == c).map Prod.fst).getD c

/-- Core loop of Python's `str.title()`: the first cased character of every
maximal cased run is uppercased, the rest of the run lowercased.  The Boolean
argument records whether the previous character was cased. -/
def pyTitleAux : Bool → List Char → List Char
  | _, [] => []
  | prevCased, c :: cs =>
    (if asciiIsAlpha c then (if prevCased then asciiLower c else asciiUpper c) else c)
      :: pyTitleAux (asciiIsAlpha c) cs

/-- Python's `str.title()` on the ASCII range. -/
def pyTitle (s : String) : String := String.mk (pyTitleAux false s.data)

/-- Python's `str.split(sep)` for a one-character separator: splits at every
occurrence of `sep`, keeping empty fragments (e.g. `"a  b".split(" ") ==
["a", "", "b"]`). -/
def pySplitChar (sep : Char) : List Char → List (List Char)
  | [] => [[]]
  | c :: cs =>
    match pySplitChar sep cs with
    | [] => [[]]
    | t :: ts => if c = sep then [] :: t :: ts else (c :: t) :: ts

/-- Python whitespace test for `str.split()` with no argument. -/
def pyIsSpace (c : Char) : Bool :=
  c = ' ' || c = '\t' || c = '\n' || c = '\r' || c = '\x0b' || c = '\x0c'

/-- Fragments between single whitespace characters, empty fragments kept. -/
def pySplitPred (p : Char → Bool) : List Char → List (List Char)
  | [] => [[]]
  | c :: cs =>
    match pySplitPred p cs with
    | [] => [[]]
    | t :: ts => if p c then [] :: t :: ts else (c :: t) :: ts

/-- Python's `str.split()` with no argument: split on whitespace runs,
dropping empty fragments. -/
def pyWhitespaceSplit (s : List Char) : List (List Char) :=
  (pySplitPred pyIsSpace s).filter (fun t => !t.isEmpty)

/-- Python's `<=` on strings: code-point lexicographic comparison of the
character sequences. -/
def pyStrLe (a b : String) : Prop := a.data ≤ b.data

instance : DecidableRel pyStrLe := fun a b =>
  inferInstanceAs (Decidable (a.data ≤ b.data))

instance : IsTotal String pyStrLe :=
  ⟨fun a b => IsTotal.total (r := (· ≤ · : List Char → List Char → Prop)) a.data b.data⟩

instance : IsTrans String pyStrLe :=
  ⟨fun _ _ _ hab hbc =>
    IsTrans.trans (r := (· ≤ · : List Char → List Char → Prop)) _ _ _ hab hbc⟩

/-- Python's `sorted(list(set(l)))` on strings: the distinct elements in
code-point lexicographic order. -/
def pySortedSet (l : List String) : List String :=
  List.insertionSort pyStrLe l.dedup

/-- The token multiset built by `get_unique_names`'s comprehension
`[word.title() for name in name_list for word in name.split(" ")]`. -/
def name_tokens (name_list : List String) : List String :=
  name_list.flatMap fun name => (pySplitChar ' ' name.data).map fun w => pyTitle (String.mk w)

/-- Embedding of `get_unique_names` (src/presidio_config.py:48-64): title-case
every space-split token of every name, deduplicate, sort, then drop tokens
present in `remove_list`. -/
def get_unique_names (name_list remove_list : List String) : List String :=
  (pySortedSet (name_tokens name_list)).filter fun n => decide (n ∉ remove_list)

/-- The token multiset under the C2 claim's reading of the tokenization:
title-cased WHITESPACE-split tokens (Python `str.split()` with no argument,
which splits on whitespace runs and drops empty fragments).  Defined from the
spec's words, for comparison with `name_tokens`. -/
def whitespace_name_tokens (name_list : List String) : List String :=
  name_list.flatMap fun name =>
    (pyWhitespaceSplit name.data).map fun w => pyTitle (String.mk w)

/-- The C2 claim's reading of `get_unique_names`, built on whitespace-split
tokens.  Defined from the spec's words, for comparison with
`get_unique_names`. -/
def get_unique_names_whitespace_spec (name_list remove_list : List String) : List String :=
  (pySortedSet (whitespace_name_tokens name_list)).filter fun n => decide (n ∉ remove_list)

/-- One-pass automaton for `re.sub(r"\(.*?\)", "", s)`: on `'('` start
buffering; a `')'` while buffering discards the buffered segment (the
non-greedy match from the nearest unconsumed `'('` to the nearest `')'`); a
newline or end of input while buffering flushes the buffer verbatim, since
`.` cannot cross a newline, so every `'('` in the buffer has no reachable
`')'` and the regex leaves those characters untouched. -/
def stripParensGo : Option (List Char) → List Char → List Char
  | none, [] => []
  | some buf, [] => buf.reverse
  | none, c :: cs =>
    if c = '(' then stripParensGo (some [c]) cs
    else c :: stripParensGo none cs
  | some buf, c :: cs =>
    if c = ')' then stripParensGo none cs
    else if c = '\n' then buf.reverse ++ '\n' :: stripParensGo none cs
    else stripParensGo (some (c :: buf)) cs

/-- `re.sub(r"\(.*?\)", "", s)`: delete every non-greedy parenthesized segment. -/
def stripParens (s : List Char) : List Char := stripParensGo none s

/-- The per-item normalization of `generate_location_list`
(src/presidio_config.py:163-166): `" ".join(re.sub(r"\(.*?\)", "", item).split()).title()`. -/
def normalizeLocation (item : String) : String :=
  pyTitle (String.intercalate " " ((pyWhitespaceSplit (stripParens item.data)).map String.mk))

/-- Embedding of `generate_location_list` (src/presidio_config.py:144-167):
sort and deduplicate the concatenated location sources, then normalize each
entry.  Note the sort/dedup happens before the normalization, exactly as in
the source. -/
def generate_location_list (country_names state_names city_names airport_names : List String) :
    List String :=
  (pySortedSet (country_names ++ state_names ++ city_names ++ airport_names)).map
    normalizeLocation

/-- Deny-list assembly of `get_datetime_recognizer` (src/presidio_config.py:109-128):
plain concatenation of the three vocabulary lists. -/
def get_datetime_list (month_list week_list time_list : List String) : List String :=
  month_list ++ week_list ++ time_list

/-- The `month_list` literal of `run` (src/presidio_config.py:945-958); the
source comments out the `"May"` entry. -/
def month_list : List String :=
  ["January", "February", "March", "April", "June", "July", "August", "September",
   "October", "November", "December"]

/-- The `week_list` literal of `run` (src/presidio_config.py:959-967). -/
def week_list : List String :=
  ["Monday", "Tuesday", "Wednesday", "Thursday", "Friday", "Saturday", "Sunday"]

/-- The `time_list` literal of `run` (src/presidio_config.py:968). -/
def time_list : List String := ["Noon", "Midnight"]

/-- The DATE_TIME deny-list as built by `run`. -/
def datetime_list : List String := get_datetime_list month_list week_list time_list

/-- The names of the twelve months, as the spec's phrase "month names" denotes. -/
def all_month_names : List String :=
  ["January", "February", "March", "April", "May", "June", "July", "August",
   "September", "October", "November", "December"]

/-- The curated `remove_list` of `run` (src/presidio_config.py:192). -/
def remove_list : List String :=
  ["A", "Job", "You", "West", "Don", "Young", "Ma", "Said", "Bye Bye", "Okay", "Perfect"]

/-- Deny-list assembly of `get_email_recognizer` (src/presidio_config.py:130-142):
`list(set([domain.split(".")[0].title() for domain in email_domains]))`.
CPython set iteration order is unspecified; it is modelled deterministically by
`List.dedup`, which preserves one occurrence of each distinct element.  No
sorting is applied, exactly as in the source. -/
def get_email_list (email_domains : List String) : List String :=
  (email_domains.map fun domain =>
    pyTitle (String.mk ((pySplitChar '.' domain.data).headD []))).dedup

/-- Character class `[B-HJ-Z]` of the SINGLE_CHAR_EXCLUDE_AI pattern. -/
def singleCharRange (c : Char) : Bool := ('B' ≤ c && c ≤ 'H') || ('J' ≤ c && c ≤ 'Z')

/-- Zero-width-anchored match test for the regex `(?<= )([B-HJ-Z])(?= )` of
`get_single_char_recognizer` (src/presidio_config.py:93-107) at position `i`:
the character at `i` is in `[B-HJ-Z]`, the lookbehind requires a space
character immediately before it, and the lookahead a space character
immediately after it. -/
def singleCharMatchAt (s : List Char) (i : Nat) : Bool :=
  (match s[i]? with | some c => singleCharRange c | none => false)
    && decide (0 < i) && (s[i - 1]? == some ' ') && (s[i + 1]? == some ' ')

/-- All match positions of the SINGLE_CHAR_EXCLUDE_AI pattern in `s`.  Matches
are single characters and the flanking spaces are zero-width assertions, so
the regex scan finds exactly the positions satisfying `singleCharMatchAt`. -/
def singleCharMatches (s : List Char) : List Nat :=
  (List.range s.length).filter (singleCharMatchAt s)

/-- One parsed row of an SSA `.txt` name file as read by
`pd.read_csv(file, header=None, names=["Name", "Gender", "Number"])`.
`freq` is the `Number` cell; `none` models a missing or non-numeric cell,
which pandas holds as NaN, and `NaN > top_n` is false, so such a row is
dropped silently by the filter. -/
structure NameRecord where
  name : String
  freq : Option Int
deriving Repr, DecidableEq

/-- The row filter `data[data["Number"] > top_n]` of `process_name_txt_files`
(src/presidio_config.py:22-27): keep a row exactly when its frequency cell is
present and strictly greater than `top_n`. -/
def rowPasses (top_n : Int) (r : NameRecord) : Bool :=
  match r.freq with
  | some f => decide (top_n < f)
  | none => false

/-- Embedding of `process_name_txt_files` (src/presidio_config.py:9-27): for
each file in turn, append the `Name` column of the rows passing the frequency
filter to the accumulated `name_list`. -/
def process_name_txt_files (files : List (List NameRecord)) (name_list : List String)
    (top_n : Int) : List String :=
  files.foldl (fun acc file => acc ++ (file.filter (rowPasses top_n)).map NameRecord.name)
    name_list

/-- One parsed row of a hispanic-names `.csv` file as read by
`pd.read_csv(file, header=None, skiprows=1)`: column 0 is the name (`none`
models a missing cell, dropped by `.dropna()`), column 1 the rank cell
(`none` models a missing or non-numeric cell, pandas NaN). -/
structure CsvRecord where
  name : Option String
  freq : Option Int
deriving Repr, DecidableEq

/-- The row filter `data[data[1] > top_n]` of `process_name_csv_files`. -/
def csvRowPasses (top_n : Int) (r : CsvRecord) : Bool :=
  match r.freq with
  | some f => decide (top_n < f)
  | none => false

/-- Embedding of `process_name_csv_files` (src/presidio_config.py:29-46): for
each file, filter rows by the frequency threshold, drop rows with a missing
name, transliterate each kept name with `unidecode` (passed in as the opaque
transliteration `translit`), and append to the accumulated list. -/
def process_name_csv_files (translit : String → String) (files : List (List CsvRecord))
    (name_list : List String) (top_n : Int) : List String :=
  files.foldl
    (fun acc file =>
      acc ++ (((file.filter (csvRowPasses top_n)).filterMap CsvRecord.name).map translit))
    name_list

/-- Modelled from the spec: a raw detector match (spec §3 RawMatch).  The
detection and resolution step runs inside the external `presidio_analyzer`
library (invoked by `analyzer.analyze` at src/presidio_config.py:1021), so it
is not present under `src/`; the structure follows the spec's data model.
Confidence scores are modelled as rationals, which carries the full ordering
behavior the resolver needs. -/
structure RawMatch where
  label : String
  start : Nat
  stop : Nat
  score : ℚ
  recognizerOrder : Nat
deriving Repr, DecidableEq

/-- Modelled from the spec: the resolved output unit (spec §3 EntitySpan). -/
structure EntitySpan where
  label : String
  start : Nat
  stop : Nat
  score : ℚ
deriving Repr, DecidableEq

/-- Forget the recognizer provenance of a winning match. -/
def RawMatch.toSpan (m : RawMatch) : EntitySpan :=
  ⟨m.label, m.start, m.stop, m.score⟩

/-- Two matches conflict when their `[start, stop)` intervals intersect. -/
def RawMatch.conflicts (a b : RawMatch) : Prop :=
  a.start < b.stop ∧ b.start < a.stop

instance : DecidableRel RawMatch.conflicts := fun _ _ =>
  instDecidableAnd

/-- Modelled from the spec: the resolver's priority order (spec §4.5): higher
confidence first, then larger span, then earlier start offset, then
recognizer-registration order. -/
def priorityOrder (a b : RawMatch) : Prop :=
  b.score < a.score ∨
    (b.score = a.score ∧
      (b.stop - b.start < a.stop - a.start ∨
        (b.stop - b.start = a.stop - a.start ∧
          (a.start < b.start ∨ (a.start = b.start ∧ a.recognizerOrder ≤ b.recognizerOrder)))))

instance : DecidableRel priorityOrder := fun a b => by
  unfold priorityOrder; infer_instance

/-- Greedy sweep over the priority-sorted matches: keep a match exactly when
it conflicts with no already-kept match. -/
def keepNonConflicting : List RawMatch → List RawMatch → List RawMatch
  | kept, [] => kept
  | kept, m :: ms =>
    if kept.any (fun k => decide (k.conflicts m)) then keepNonConflicting kept ms
    else keepNonConflicting (kept ++ [m]) ms

/-- Start-offset order on raw matches, used for the final output ordering. -/
def startLe (a b : RawMatch) : Prop := a.start ≤ b.start

instance : DecidableRel startLe := fun a b => Nat.decLe a.start b.start

instance : IsTotal RawMatch startLe := ⟨fun a b => Nat.le_total a.start b.start⟩

instance : IsTrans RawMatch startLe := ⟨fun _ _ _ => Nat.le_trans⟩

/-- Modelled from the spec: `resolve` (spec §4.5).  Order all raw matches by
the priority comparator, greedily retain each match conflicting with no
previously retained one, then emit the winners sorted by start offset. -/
def resolve (rawMatches : List RawMatch) : List EntitySpan :=
  (List.insertionSort startLe
      (keepNonConflicting [] (List.insertionSort priorityOrder rawMatches))).map
    RawMatch.toSpan

/-- Non-overlap of resolved spans on their `[start, stop)` intervals. -/
def EntitySpan.disjointFrom (a b : EntitySpan) : Prop :=
  ¬(a.start < b.stop ∧ b.start < a.stop)


theorem mem_pySortedSet {s : String} {l : List String} : s ∈ pySortedSet l ↔ s ∈ l := by
  simp [pySortedSet, List.mem_insertionSort, List.mem_dedup]

theorem pySortedSet_sorted (l : List String) : List.Sorted pyStrLe (pySortedSet l) :=
  List.sorted_insertionSort pyStrLe l.dedup

theorem pySortedSet_nodup (l : List String) : (pySortedSet l).Nodup :=
  (List.perm_insertionSort pyStrLe l.dedup).nodup_iff.mpr l.nodup_dedup

theorem get_unique_names_sorted (name_list remove_list : List String) :
    List.Sorted pyStrLe (get_unique_names name_list remove_list) :=
  (pySortedSet_sorted (name_tokens name_list)).filter _

theorem get_unique_names_nodup (name_list remove_list : List String) :
    (get_unique_names name_list remove_list).Nodup :=
  (pySortedSet_nodup (name_tokens name_list)).filter _

theorem mem_get_unique_names {s : String} {name_list remove_list : List String} :
    s ∈ get_unique_names name_list remove_list ↔
      s ∈ name_tokens name_list ∧ s ∉ remove_list := by
  simp [get_unique_names, List.mem_filter, mem_pySortedSet]

theorem sep_not_mem_pySplitChar (sep : Char) :
    ∀ (s : List Char), ∀ t ∈ pySplitChar sep s, sep ∉ t := by
  intro s
  induction s with
  | nil =>
    intro t ht
    simp only [pySplitChar, List.mem_singleton] at ht
    simp [ht]
  | cons c cs ih =>
    intro t ht
    rw [pySplitChar] at ht
    cases h : pySplitChar sep cs with
    | nil =>
      rw [h] at ht
      simp only [List.mem_singleton] at ht
      simp [ht]
    | cons t0 ts =>
      rw [h] at ht
      by_cases hc : c = sep
      · simp only [if_pos hc, List.mem_cons] at ht
        rcases ht with rfl | ht
        · simp
        · exact ih t (by rw [h]; exact List.mem_cons.mpr ht)
      · simp only [if_neg hc, List.mem_cons] at ht
        rcases ht with rfl | ht
        · intro hmem
          rcases List.mem_cons.mp hmem with h' | hmem'
          · exact hc h'.symm
          · exact ih t0 (by rw [h]; exact List.mem_cons_self t0 ts) hmem'
        · exact ih t (by rw [h]; exact List.mem_cons_of_mem t0 ht)

theorem asciiUpper_ne_space {c : Char} (hc : c ≠ ' ') : asciiUpper c ≠ ' ' := by
  unfold asciiUpper
  cases h : asciiCasePairs.find? fun p => p.1 == c with
  | none => simpa using hc
  | some pr =>
    have hm : pr ∈ asciiCasePairs := List.mem_of_find?_eq_some h
    simp only [Option.map_some', Option.getD_some]
    intro he
    have hall : ∀ p ∈ asciiCasePairs, p.2 ≠ ' ' := by decide
    exact hall pr hm he

theorem asciiLower_ne_space {c : Char} (hc : c ≠ ' ') : asciiLower c ≠ ' ' := by
  unfold asciiLower
  cases h : asciiCasePairs.find? fun p => p.2 == c with
  | none => simpa using hc
  | some pr =>
    have hm : pr ∈ asciiCasePairs := List.mem_of_find?_eq_some h
    simp only [Option.map_some', Option.getD_some]
    intro he
    have hall : ∀ p ∈ asciiCasePairs, p.1 ≠ ' ' := by decide
    exact hall pr hm he

theorem pyTitleAux_no_space :
    ∀ (b : Bool) (l : List Char), ' ' ∉ l → ' ' ∉ pyTitleAux b l := by
  intro b l
  induction l generalizing b with
  | nil => intro _ h; simp [pyTitleAux] at h
  | cons c cs ih =>
    intro hn hmem
    have hc : c ≠ ' ' := fun h => hn (h ▸ List.mem_cons_self c cs)
    rw [pyTitleAux] at hmem
    rcases List.mem_cons.mp hmem with he | hmem'
    · by_cases ha : asciiIsAlpha c
      · rw [if_pos ha] at he
        cases b with
        | true => exact asciiLower_ne_space hc he.symm
        | false => exact asciiUpper_ne_space hc he.symm
      · rw [if_neg ha] at he
        exact hc he.symm
    · exact ih (asciiIsAlpha c) (fun h => hn (List.mem_cons_of_mem c h)) hmem'

theorem name_tokens_no_space {t : String} {name_list : List String}
    (ht : t ∈ name_tokens name_list) : ' ' ∉ t.data := by
  unfold name_tokens at ht
  rcases List.mem_flatMap.mp ht with ⟨name, _, hmem⟩
  rcases List.mem_map.mp hmem with ⟨w, hw, rfl⟩
  exact pyTitleAux_no_space false w (sep_not_mem_pySplitChar ' ' name.data w hw)

theorem foldl_append_eq_flatten {β γ : Type} (g : β → List γ) :
    ∀ (files : List β) (acc : List γ),
      List.foldl (fun a f => a ++ g f) acc files = acc ++ (files.map g).flatten
  | [], _ => by simp
  | f :: fs, acc => by
    simp only [List.foldl_cons, List.map_cons, List.flatten_cons]
    rw [foldl_append_eq_flatten g fs (acc ++ g f), List.append_assoc]

theorem filter_map_flatten {β γ : Type} (p : β → Bool) (h : β → γ) :
    ∀ (files : List (List β)),
      (files.flatten.filter p).map h = (files.map fun file => (file.filter p).map h).flatten
  | [] => rfl
  | f :: fs => by
    simp [List.filter_append, List.map_append, filter_map_flatten p h fs, Function.comp]
    rfl

theorem filter_filterMap_map_flatten {β γ δ : Type} (p : β → Bool) (g : β → Option γ)
    (h : γ → δ) :
    ∀ (files : List (List β)),
      ((files.flatten.filter p).filterMap g).map h =
        (files.map fun file => ((file.filter p).filterMap g).map h).flatten
  | [] => rfl
  | f :: fs => by
    simp [List.filter_append, List.filterMap_append, List.map_append,
      filter_filterMap_map_flatten p g h fs, Function.comp]
    rfl

theorem conflicts_symm {a b : RawMatch} (h : a.conflicts b) : b.conflicts a :=
  ⟨h.2, h.1⟩

theorem keepNonConflicting_pairwise :
    ∀ (rest kept : List RawMatch),
      kept.Pairwise (fun x y => ¬x.conflicts y) →
      (keepNonConflicting kept rest).Pairwise fun x y => ¬x.conflicts y
  | [], _, h => h
  | m :: ms, kept, h => by
    rw [keepNonConflicting]
    by_cases hc : kept.any (fun k => decide (k.conflicts m)) = true
    · rw [if_pos hc]
      exact keepNonConflicting_pairwise ms kept h
    · rw [if_neg hc]
      apply keepNonConflicting_pairwise ms
      rw [List.pairwise_append]
      refine ⟨h, List.pairwise_singleton _ _, ?_⟩
      intro x hx y hy
      rcases List.mem_singleton.mp hy with rfl
      have hfalse := List.any_eq_false.mp (Bool.eq_false_iff.mpr hc) x hx
      exact fun hcon => hfalse (decide_eq_true hcon)

/-- C1: for every input sequence of raw matches (hence for every output of the
detection step over any registry), the entity spans produced by `resolve` are
pairwise non-overlapping on their `[start, stop)` intervals and sorted by
start offset ascending. -/
theorem resolve_sorted_and_disjoint (rawMatches : List RawMatch) :
    List.Sorted (fun a b : EntitySpan => a.start ≤ b.start) (resolve rawMatches) ∧
      (resolve rawMatches).Pairwise EntitySpan.disjointFrom := by
  unfold resolve
  constructor
  · exact List.Pairwise.map _ (fun a b h => h) (List.sorted_insertionSort startLe _)
  · have hkept :=
      keepNonConflicting_pairwise (List.insertionSort priorityOrder rawMatches) []
        List.Pairwise.nil
    have hsym : ∀ {x y : RawMatch}, ¬x.conflicts y → ¬y.conflicts x :=
      fun h hc => h (conflicts_symm hc)
    have hsorted :=
      ((List.perm_insertionSort startLe _).pairwise_iff hsym).mpr hkept
    exact List.Pairwise.map _ (fun a b h => h) hsorted

/-- C2 (counterexample): on the input name list `["John  Smith"]` (two spaces)
with an empty exclusion list, `get_unique_names` splits on single spaces and
keeps the resulting empty token, so its output contains `""`; the claimed
whitespace-split reading drops empty fragments, and the two outputs differ. -/
theorem get_unique_names_whitespace_counterexample :
    get_unique_names ["John  Smith"] [] = ["", "John", "Smith"] ∧
      get_unique_names_whitespace_spec ["John  Smith"] [] = ["John", "Smith"] ∧
      get_unique_names ["John  Smith"] [] ≠
        get_unique_names_whitespace_spec ["John  Smith"] [] :=
  ⟨by decide, by decide, by decide⟩

/-- C2 (amended): for every input and exclusion list, `get_unique_names`
returns exactly the code-point sorted, duplicate-free list of the title-cased
single-space-split tokens of the input names (empty tokens from adjacent
separators included), with every token occurring in the exclusion list
removed: the output is sorted, has no duplicates, and contains a string iff
it is such a token and not excluded. -/
theorem get_unique_names_characterization (name_list remove_list : List String) :
    List.Sorted pyStrLe (get_unique_names name_list remove_list) ∧
      (get_unique_names name_list remove_list).Nodup ∧
      ∀ s : String,
        s ∈ get_unique_names name_list remove_list ↔
          s ∈ name_tokens name_list ∧ s ∉ remove_list :=
  ⟨get_unique_names_sorted name_list remove_list,
    get_unique_names_nodup name_list remove_list, fun _ => mem_get_unique_names⟩

/-- C3: no element of the compiled PERSON deny-list is a member of the
exclusion list it was built with, for every input corpus and exclusion list;
the other categories' exclusion sets are empty, so the invariant holds for
them vacuously. -/
theorem compiled_list_exclusion_disjoint (name_list remove_list : List String) (x : String)
    (hx : x ∈ get_unique_names name_list remove_list) : x ∉ remove_list :=
  (mem_get_unique_names.mp hx).2

/-- Witness for C3 at a concrete input. -/
theorem compiled_list_exclusion_disjoint_witness : ("Quixote" : String) ∉ ["Don"] :=
  compiled_list_exclusion_disjoint ["Don Quixote"] ["Don"] "Quixote" (by decide)

/-- C4: the LOCATION compilation keeps multi-word place names intact as whole
phrases (after stripping parenthetical qualifiers and collapsing whitespace
runs), while the PERSON compilation splits multi-word names into per-token
entries. -/
theorem tokenization_asymmetry :
    generate_location_list [] [] ["New York"] [] = ["New York"] ∧
      generate_location_list ["Cocos (Keeling) Islands"] [] [] [] = ["Cocos Islands"] ∧
      get_unique_names ["John Smith", "Jane Smith"] [] = ["Jane", "John", "Smith"] :=
  ⟨by decide, by decide, by decide⟩

/-- C5 (counterexample): the LOCATION compilation normalizes entries only
after sorting and deduplicating, so the final list can contain duplicates
(two raw entries that normalize to the same phrase) and can be unsorted
(normalization changes the relative order). -/
theorem location_list_unsorted_duplicates_counterexample :
    generate_location_list ["Cocos (Keeling) Islands", "Cocos Islands"] [] [] [] =
        ["Cocos Islands", "Cocos Islands"] ∧
      ¬(generate_location_list ["Cocos (Keeling) Islands", "Cocos Islands"] [] [] []).Nodup ∧
      generate_location_list ["alpha", "Beta"] [] [] [] = ["Beta", "Alpha"] ∧
      ¬List.Sorted pyStrLe (generate_location_list ["alpha", "Beta"] [] [] []) :=
  ⟨by decide, by decide, by decide, by decide⟩

/-- C5 (amended): the compiled PERSON deny-list is sorted and duplicate-free
for every input; the LOCATION, DATE_TIME and EMAIL_DOMAIN lists carry no such
guarantee. -/
theorem person_compiled_list_sorted_nodup (name_list remove_list : List String) :
    List.Sorted pyStrLe (get_unique_names name_list remove_list) ∧
      (get_unique_names name_list remove_list).Nodup :=
  ⟨get_unique_names_sorted name_list remove_list,
    get_unique_names_nodup name_list remove_list⟩

/-- C6 (counterexample): `"May"` is a month name but is absent from the
DATE_TIME deny-list built by `run`, whose `month_list` literal comments the
entry out. -/
theorem datetime_list_missing_may :
    "May" ∈ all_month_names ∧ "May" ∉ datetime_list :=
  ⟨by decide, by decide⟩

/-- C6 (amended): the DATE_TIME deny-list built by `run` consists exactly of
the month names other than `"May"`, the weekday names, and the two terms
`"Noon"` and `"Midnight"`; every month name other than `"May"` is an element
of it. -/
theorem datetime_list_contents :
    datetime_list =
        (all_month_names.filter fun m => decide (m ≠ "May")) ++ week_list ++ time_list ∧
      ∀ m ∈ all_month_names, m ≠ "May" → m ∈ datetime_list :=
  ⟨by decide, by decide⟩

/-- Witness for C6 (amended) at a concrete month. -/
theorem datetime_list_contents_witness : "June" ∈ datetime_list :=
  datetime_list_contents.2 "June" (by decide) (by decide)

/-- C7 (counterexample): in the text `"A B C"` the SINGLE_CHAR_EXCLUDE_AI
pattern matches only position 2 (the `"B"`); the final `"C"` at position 4
does not match, because the lookahead `(?= )` requires a space character
after the letter and the text ends there. -/
theorem single_char_end_of_text_counterexample :
    "A B C".data[4]? = some 'C' ∧ singleCharMatches "A B C".data = [2] ∧
      4 ∉ singleCharMatches "A B C".data :=
  ⟨by decide, by decide, by decide⟩

/-- C7 (amended): every match of the SINGLE_CHAR_EXCLUDE_AI pattern is a
character other than `'A'` and `'I'` (it lies in `[B-HJ-Z]`) and is
immediately preceded and followed by a space character; in particular `"A"`
and `"I"` never match, and a letter at the start or end of the text never
matches. -/
theorem single_char_matches_flanked (s : List Char) (i : Nat)
    (h : i ∈ singleCharMatches s) :
    s[i]? ≠ some 'A' ∧ s[i]? ≠ some 'I' ∧ 0 < i ∧
      s[i - 1]? = some ' ' ∧ s[i + 1]? = some ' ' := by
  unfold singleCharMatches at h
  have h' := (List.mem_filter.mp h).2
  unfold singleCharMatchAt at h'
  cases hc : s[i]? with
  | none => rw [hc] at h'; simp at h'
  | some c =>
    rw [hc] at h'
    simp only [Bool.and_eq_true, beq_iff_eq, decide_eq_true_eq] at h'
    obtain ⟨⟨⟨hr, hi⟩, hprev⟩, hnext⟩ := h'
    refine ⟨?_, ?_, hi, hprev, hnext⟩
    · intro he
      have hca : c = 'A' := Option.some.inj he
      rw [hca] at hr
      exact absurd hr (by decide)
    · intro he
      have hci : c = 'I' := Option.some.inj he
      rw [hci] at hr
      exact absurd hr (by decide)

/-- Witness for C7 (amended) at a concrete text and position. -/
theorem single_char_matches_flanked_witness :
    " B ".data[1]? ≠ some 'A' ∧ " B ".data[1]? ≠ some 'I' ∧ 0 < 1 ∧
      " B ".data[1 - 1]? = some ' ' ∧ " B ".data[1 + 1]? = some ' ' :=
  single_char_matches_flanked " B ".data 1 (by decide)

/-- C8: the corpus-processing functions append exactly the names of the rows
whose frequency cell is present and strictly greater than `top_n`; a row
whose frequency cell is missing or non-numeric (modelled as `none`, pandas
NaN) never passes the filter and contributes nothing, and both functions are
total, so no error is raised. -/
theorem corpus_threshold_filter (txt_files : List (List NameRecord))
    (csv_files : List (List CsvRecord)) (translit : String → String)
    (name_list csv_name_list : List String) (top_n : Int) :
    process_name_txt_files txt_files name_list top_n =
        name_list ++ (txt_files.flatten.filter (rowPasses top_n)).map NameRecord.name ∧
      process_name_csv_files translit csv_files csv_name_list top_n =
        csv_name_list ++
          ((csv_files.flatten.filter (csvRowPasses top_n)).filterMap CsvRecord.name).map
            translit ∧
      (∀ nm : String, rowPasses top_n ⟨nm, none⟩ = false) ∧
      (∀ nm : Option String, csvRowPasses top_n ⟨nm, none⟩ = false) := by
  refine ⟨?_, ?_, fun _ => rfl, fun _ => rfl⟩
  · exact (foldl_append_eq_flatten _ txt_files name_list).trans
      (congrArg (name_list ++ ·)
        (filter_map_flatten (rowPasses top_n) NameRecord.name txt_files).symm)
  · exact (foldl_append_eq_flatten _ csv_files csv_name_list).trans
      (congrArg (csv_name_list ++ ·)
        (filter_filterMap_map_flatten (csvRowPasses top_n) CsvRecord.name translit
          csv_files).symm)

/-- C9 (counterexample): a term consisting only of a parenthetical becomes
empty after stripping, and is not dropped: it appears in the returned
location list as the empty string. -/
theorem location_empty_term_kept_counterexample :
    generate_location_list ["(Keeling)"] [] [] [] = [""] ∧
      ("" : String) ∈ generate_location_list ["(Keeling)"] [] [] [] :=
  ⟨by decide, by decide⟩

/-- C9 (amended): a term that becomes empty after stripping its parenthetical
qualifier and collapsing whitespace is kept, contributing the empty string to
the returned location list. -/
theorem location_empty_term_in_output
    (country_names state_names city_names airport_names : List String) (item : String)
    (hmem : item ∈ country_names ++ state_names ++ city_names ++ airport_names)
    (hempty : normalizeLocation item = "") :
    "" ∈ generate_location_list country_names state_names city_names airport_names :=
  List.mem_map.mpr ⟨item, mem_pySortedSet.mpr hmem, hempty⟩

/-- Witness for C9 (amended) at a concrete input. -/
theorem location_empty_term_in_output_witness :
    ("" : String) ∈ generate_location_list ["(Keeling)"] [] [] [] :=
  location_empty_term_in_output ["(Keeling)"] [] [] [] "(Keeling)" (by decide) (by decide)

/-- C10: `get_unique_names` splits on the single ASCII space character only,
so no element of its output contains a space; consequently an exclusion-list
entry containing a space (such as `"Bye Bye"` in the curated remove list)
never equals any token, and removing such an entry from the exclusion list
never changes the output. -/
theorem person_tokens_space_free (name_list remove_list : List String) :
    (∀ t ∈ get_unique_names name_list remove_list, ' ' ∉ t.data) ∧
      ∀ e : String, ' ' ∈ e.data →
        get_unique_names name_list (e :: remove_list) =
          get_unique_names name_list remove_list := by
  constructor
  · intro t ht
    exact name_tokens_no_space (mem_get_unique_names.mp ht).1
  · intro e he
    unfold get_unique_names
    apply List.filter_congr
    intro x hx
    have hxs : ' ' ∉ x.data := name_tokens_no_space (mem_pySortedSet.mp hx)
    have hne : x ≠ e := fun h => hxs (h ▸ he)
    rw [decide_eq_decide]
    simp [List.mem_cons, hne]

/-- Witness for C10 at a concrete input. -/
theorem person_tokens_space_free_witness :
    (' ' ∉ ("John" : String).data) ∧
      get_unique_names ["John Smith"] ["Bye Bye"] = get_unique_names ["John Smith"] [] :=
  ⟨(person_tokens_space_free ["John Smith"] []).1 "John" (by decide),
    (person_tokens_space_free ["John Smith"] []).2 "Bye Bye" (by decide)⟩

end PII
